import Mathlib

/-!
Verification development for the AutoLabMCP dynamic tool server.

The Python sources are shallowly embedded: dictionaries become association
lists with Python-dict semantics (unique keys maintained by the update
operations), JSON-serializable values become the inductive type `PyJson`,
file modification times become naturals (only their order matters), and the
wall clock becomes an explicit monotone parameter.  Each embedded definition
carries the name of the Python function it translates.
-/

namespace AutoLabMCP

/-- Model of a JSON-serializable Python value (None, bool, int, str, list,
dict).  Dictionaries are association lists in insertion order. -/
inductive PyJson : Type where
  | null : PyJson
  | bool : Bool → PyJson
  | num : Int → PyJson
  | str : String → PyJson
  | arr : List PyJson → PyJson
  | obj : List (String × PyJson) → PyJson

mutual

/-- Decidable equality for PyJson (deriving cannot handle the nesting). -/
def PyJson.decEq : (a b : PyJson) → Decidable (a = b)
  | .null, .null => isTrue rfl
  | .bool x, .bool y =>
      match Bool.decEq x y with
      | isTrue h => isTrue (by rw [h])
      | isFalse h => isFalse (by intro hh; cases hh; exact h rfl)
  | .num x, .num y =>
      match Int.decEq x y with
      | isTrue h => isTrue (by rw [h])
      | isFalse h => isFalse (by intro hh; cases hh; exact h rfl)
  | .str x, .str y =>
      match String.decEq x y with
      | isTrue h => isTrue (by rw [h])
      | isFalse h => isFalse (by intro hh; cases hh; exact h rfl)
  | .arr x, .arr y =>
      match PyJson.decEqList x y with
      | isTrue h => isTrue (by rw [h])
      | isFalse h => isFalse (by intro hh; cases hh; exact h rfl)
  | .obj x, .obj y =>
      match PyJson.decEqObj x y with
      | isTrue h => isTrue (by rw [h])
      | isFalse h => isFalse (by intro hh; cases hh; exact h rfl)
  | .null, .bool _ => isFalse (by intro h; cases h)
  | .null, .num _ => isFalse (by intro h; cases h)
  | .null, .str _ => isFalse (by intro h; cases h)
  | .null, .arr _ => isFalse (by intro h; cases h)
  | .null, .obj _ => isFalse (by intro h; cases h)
  | .bool _, .null => isFalse (by intro h; cases h)
  | .bool _, .num _ => isFalse (by intro h; cases h)
  | .bool _, .str _ => isFalse (by intro h; cases h)
  | .bool _, .arr _ => isFalse (by intro h; cases h)
  | .bool _, .obj _ => isFalse (by intro h; cases h)
  | .num _, .null => isFalse (by intro h; cases h)
  | .num _, .bool _ => isFalse (by intro h; cases h)
  | .num _, .str _ => isFalse (by intro h; cases h)
  | .num _, .arr _ => isFalse (by intro h; cases h)
  | .num _, .obj _ => isFalse (by intro h; cases h)
  | .str _, .null => isFalse (by intro h; cases h)
  | .str _, .bool _ => isFalse (by intro h; cases h)
  | .str _, .num _ => isFalse (by intro h; cases h)
  | .str _, .arr _ => isFalse (by intro h; cases h)
  | .str _, .obj _ => isFalse (by intro h; cases h)
  | .arr _, .null => isFalse (by intro h; cases h)
  | .arr _, .bool _ => isFalse (by intro h; cases h)
  | .arr _, .num _ => isFalse (by intro h; cases h)
  | .arr _, .str _ => isFalse (by intro h; cases h)
  | .arr _, .obj _ => isFalse (by intro h; cases h)
  | .obj _, .null => isFalse (by intro h; cases h)
  | .obj _, .bool _ => isFalse (by intro h; cases h)
  | .obj _, .num _ => isFalse (by intro h; cases h)
  | .obj _, .str _ => isFalse (by intro h; cases h)
  | .obj _, .arr _ => isFalse (by intro h; cases h)

/-- Decidable equality for lists of PyJson. -/
def PyJson.decEqList : (a b : List PyJson) → Decidable (a = b)
  | [], [] => isTrue rfl
  | [], _ :: _ => isFalse (by intro h; cases h)
  | _ :: _, [] => isFalse (by intro h; cases h)
  | x :: xs, y :: ys =>
      match PyJson.decEq x y with
      | isTrue h1 =>
          match PyJson.decEqList xs ys with
          | isTrue h2 => isTrue (by rw [h1, h2])
          | isFalse h2 => isFalse (by intro hh; cases hh; exact h2 rfl)
      | isFalse h1 => isFalse (by intro hh; cases hh; exact h1 rfl)

/-- Decidable equality for string-keyed association lists of PyJson. -/
def PyJson.decEqObj :
    (a b : List (String × PyJson)) → Decidable (a = b)
  | [], [] => isTrue rfl
  | [], _ :: _ => isFalse (by intro h; cases h)
  | _ :: _, [] => isFalse (by intro h; cases h)
  | (k1, v1) :: xs, (k2, v2) :: ys =>
      match String.decEq k1 k2 with
      | isTrue hk =>
          match PyJson.decEq v1 v2 with
          | isTrue hv =>
              match PyJson.decEqObj xs ys with
              | isTrue h2 => isTrue (by rw [hk, hv, h2])
              | isFalse h2 => isFalse (by intro hh; cases hh; exact h2 rfl)
          | isFalse hv => isFalse (by intro hh; cases hh; exact hv rfl)
      | isFalse hk => isFalse (by intro hh; cases hh; exact hk rfl)

end

instance : DecidableEq PyJson := PyJson.decEq

/-- Lookup in a Python dict modelled as an association list
(`d[k]` / `d.get(k)` when the key is present). -/
def pyLookup {α : Type} (l : List (String × α)) (k : String) : Option α :=
  List.lookup k l

/-- Key-membership test for a Python dict (`k in d`). -/
def pyMem {α : Type} (l : List (String × α)) (k : String) : Bool :=
  (pyLookup l k).isSome

/-- Keys of a Python dict, in insertion order (`list(d.keys())`). -/
def pyKeys {α : Type} (l : List (String × α)) : List String :=
  l.map Prod.fst

/-- Assignment `d[k] = v` on a Python dict: replaces the value in place when
the key exists, otherwise appends the new binding. -/
def pySet {α : Type} (l : List (String × α)) (k : String) (v : α) :
    List (String × α) :=
  if pyMem l k then l.map (fun p => if p.1 = k then (k, v) else p)
  else l ++ [(k, v)]

/-- Deletion `del d[k]` on a Python dict with unique keys. -/
def pyDel {α : Type} (l : List (String × α)) (k : String) :
    List (String × α) :=
  l.filter (fun p => p.1 ≠ k)

/-- Python `d.get(k, default)`. -/
def pyGetD {α : Type} (l : List (String × α)) (k : String) (dflt : α) : α :=
  (pyLookup l k).getD dflt

/-- Python `s.startswith(p)`.  Implemented on the character lists so that
concrete instances reduce inside the kernel. -/
def strStartsWith (s p : String) : Bool :=
  p.data.isPrefixOf s.data

/-- Python `"-" in s`. -/
def strContainsDash (s : String) : Bool :=
  s.data.contains '-'

/-- Python `s.split("-")[0]`: the part of the string before the first dash
(the whole string when there is no dash). -/
def splitDashHead (s : String) : String :=
  String.mk (s.data.takeWhile (fun c => c ≠ '-'))

end AutoLabMCP

namespace AutoLabMCP

/-!
Embedding of src/tools/tool_env_manager.py (ToolEnvironmentManager).

The manager state that the claims touch is the in-memory tools_cache, a dict
from plugin-directory name to a cache entry.  The on-disk state of one plugin
directory is reduced to what get_tool_file_info observes: the (optional)
modification times of tool.py and requirements.txt.
-/

/-- On-disk state of one plugin directory as observed by the cache layer:
the mtime of tool.py and of requirements.txt when each file exists. -/
structure ToolDirState : Type where
  toolPyMtime : Option Nat
  requirementsMtime : Option Nat
  deriving DecidableEq, Repr

/-- Embeds ToolEnvironmentManager.get_tool_file_info: the dict of tracked
files (tool.py, requirements.txt) present on disk, each mapped to its
current modification time. -/
def get_tool_file_info (d : ToolDirState) : List (String × Nat) :=
  (match d.toolPyMtime with
    | some m => [("tool.py", m)]
    | none => []) ++
  (match d.requirementsMtime with
    | some m => [("requirements.txt", m)]
    | none => [])

/-- One entry of ToolEnvironmentManager.tools_cache, as written by
update_tool_cache: the cached descriptor list, the tracked-file mtimes
observed at load time, and the last-loaded wall-clock time. -/
structure CacheEntry : Type where
  tools : List PyJson
  fileMtimes : List (String × Nat)
  lastLoaded : Nat
  deriving DecidableEq

/-- The tools_cache dict of ToolEnvironmentManager. -/
abbrev ToolsCache : Type := List (String × CacheEntry)

/-- Embeds ToolEnvironmentManager.is_tool_cache_valid.  The source also
rejects an entry lacking the "file_mtimes" key; in this embedding every
entry is a CacheEntry record (the only writer, update_tool_cache, always
stores that key), so that branch cannot fire. -/
def is_tool_cache_valid (cache : ToolsCache) (toolName : String)
    (d : ToolDirState) : Bool :=
  match pyLookup cache toolName with
  | none => false
  | some entry =>
      let currentFileInfo := get_tool_file_info d
      -- each current file must be tracked and not newer than recorded
      currentFileInfo.all (fun fm =>
        match pyLookup entry.fileMtimes fm.1 with
        | none => false
        | some cachedMtime => !(decide (cachedMtime < fm.2))) &&
      -- each tracked file must still exist on disk
      entry.fileMtimes.all (fun fm => pyMem currentFileInfo fm.1)

/-- Embeds ToolEnvironmentManager.update_tool_cache. -/
def update_tool_cache (cache : ToolsCache) (toolName : String)
    (d : ToolDirState) (toolsData : List PyJson) (now : Nat) : ToolsCache :=
  pySet cache toolName
    { tools := toolsData
      fileMtimes := get_tool_file_info d
      lastLoaded := now }

/-- Embeds ToolEnvironmentManager.invalidate_tool_cache: returns the
success flag and the updated cache. -/
def invalidate_tool_cache (cache : ToolsCache) (toolName : String) :
    Bool × ToolsCache :=
  if pyMem cache toolName then (true, pyDel cache toolName)
  else (false, cache)

/-- Status half of the dict returned by ToolEnvironmentManager.clear_cache. -/
inductive ClearStatus : Type where
  | success : ClearStatus
  | warning : ClearStatus
  deriving DecidableEq, Repr

/-- Embeds ToolEnvironmentManager.clear_cache (status plus updated cache;
the human-readable message is dropped). -/
def clear_cache (cache : ToolsCache) (toolName : Option String) :
    ClearStatus × ToolsCache :=
  match toolName with
  | some n =>
      if pyMem cache n then (ClearStatus.success, pyDel cache n)
      else (ClearStatus.warning, cache)
  | none => (ClearStatus.success, [])

/-!
Directory scan (ToolEnvironmentManager.get_tool_directories).
-/

/-- One entry of the plugin root as seen by Path.iterdir. -/
structure DirEntry : Type where
  name : String
  isDir : Bool
  deriving DecidableEq, Repr

/-- Embeds ToolEnvironmentManager.get_tool_directories: keep directories
whose name does not start with an underscore and is not __pycache__. -/
def get_tool_directories (root : List DirEntry) : List DirEntry :=
  root.filter (fun item =>
    item.isDir && !(strStartsWith item.name "_") &&
      !(decide (item.name = "__pycache__")))

/-- The plugin-name pattern from the specification and from the
tool_environment_create validator in src/dynamic_mcp_server.py:
a letter followed by letters, digits and underscores. -/
def matchesEnvNamePattern (s : String) : Bool :=
  match s.data with
  | [] => false
  | c :: rest =>
      (c.isAlpha) && rest.all (fun ch => ch.isAlpha || ch.isDigit || ch = '_')

example : matchesEnvNamePattern "calc_2" = true := by decide
example : matchesEnvNamePattern "my-tool" = false := by decide
example :
    get_tool_directories
      [⟨"calc", true⟩, ⟨"_private", true⟩, ⟨"__pycache__", true⟩,
        ⟨"notes.txt", false⟩] = [⟨"calc", true⟩] := by decide

end AutoLabMCP

namespace AutoLabMCP

/-!
Embedding of the ToolChangeManager class of src/dynamic_mcp_server.py.

A registry snapshot maps a qualified tool name to its descriptor, itself a
dict from field name to value (the serialized FunctionTool minus its "fn"
callable).
-/

/-- Serialized tool descriptor: a Python dict of JSON values. -/
abbrev Desc : Type := List (String × PyJson)

/-- Registry snapshot: qualified tool name to descriptor. -/
abbrev Snapshot : Type := List (String × Desc)

/-- Python `d.get(key)` with its implicit None default, as used by
ToolChangeManager._get_detailed_diff. -/
def pyGetNull (d : Desc) (k : String) : PyJson :=
  (pyLookup d k).getD PyJson.null

/-- Union of the key sets of two descriptors, first occurrences kept
(models `set(old.keys()) | set(new.keys())`). -/
def descAllKeys (oldDesc newDesc : Desc) : List String :=
  (pyKeys oldDesc ++ pyKeys newDesc).dedup

/-- Embeds ToolChangeManager._get_detailed_diff: for every key of either
descriptor whose looked-up values differ (absent keys reading as None),
record the pair of old and new value. -/
def get_detailed_diff (oldDesc newDesc : Desc) :
    List (String × PyJson × PyJson) :=
  (descAllKeys oldDesc newDesc).filterMap (fun k =>
    let oldValue := pyGetNull oldDesc k
    let newValue := pyGetNull newDesc k
    if oldValue ≠ newValue then some (k, oldValue, newValue) else none)

/-- One element of the "modified" list built by detect_changes. -/
structure ModifiedEntry : Type where
  name : String
  previous : Desc
  current : Desc
  differences : List (String × PyJson × PyJson)
  deriving DecidableEq

/-- The dict of changes built by ToolChangeManager.detect_changes. -/
structure Changes : Type where
  added : List (String × Desc)
  removed : List (String × Desc)
  modified : List ModifiedEntry
  deriving DecidableEq

/-- Truthiness test used by update_tools:
`len(added) or len(modified) or len(removed)`. -/
def Changes.nonEmpty (c : Changes) : Bool :=
  !c.added.isEmpty || !c.modified.isEmpty || !c.removed.isEmpty

/-- Embeds ToolChangeManager.detect_changes on the two stored snapshots
(previous_tools, current_tools), drawn from Python dicts and hence with
unique names. -/
def detect_changes (previous current : Snapshot) : Changes :=
  { added := current.filterMap (fun p =>
      if pyMem previous p.1 then none else some p)
    removed := previous.filterMap (fun p =>
      if pyMem current p.1 then none else some p)
    modified := current.filterMap (fun p =>
      match pyLookup previous p.1 with
      | none => none
      | some prevDesc =>
          if prevDesc ≠ p.2 then
            some { name := p.1
                   previous := prevDesc
                   current := p.2
                   differences := get_detailed_diff prevDesc p.2 }
          else none) }

/-- One element of ToolChangeManager.change_history. -/
structure ChangeRecord : Type where
  timestamp : Nat
  changes : Changes
  deriving DecidableEq

/-- State of a ToolChangeManager instance. -/
structure ToolChangeManager : Type where
  previous_tools : Snapshot
  current_tools : Snapshot
  change_history : List ChangeRecord
  deriving DecidableEq

/-- The freshly constructed ToolChangeManager. -/
def ToolChangeManager.init : ToolChangeManager :=
  { previous_tools := [], current_tools := [], change_history := [] }

/-- Embeds ToolChangeManager.update_tools, with datetime.now() passed in as
the timestamp.  Returns the updated state and the detected changes. -/
def update_tools (ts : Nat) (existingToolsDesc newToolsDesc : Snapshot)
    (st : ToolChangeManager) : ToolChangeManager × Changes :=
  let changes := detect_changes existingToolsDesc newToolsDesc
  let history :=
    if changes.nonEmpty then
      st.change_history ++ [{ timestamp := ts, changes := changes }]
    else st.change_history
  ({ previous_tools := existingToolsDesc
     current_tools := newToolsDesc
     change_history := history }, changes)

/-- Embeds ToolChangeManager.get_change_summary (counts, the two most
recent diffs, and the two snapshot key sets). -/
structure ChangeSummary : Type where
  current_tools_count : Nat
  previous_tools_count : Nat
  recent_changes : List ChangeRecord
  current_names : List String
  previous_names : List String
  deriving DecidableEq

/-- Embeds ToolChangeManager.get_change_summary. -/
def get_change_summary (st : ToolChangeManager) : ChangeSummary :=
  { current_tools_count := st.current_tools.length
    previous_tools_count := st.previous_tools.length
    recent_changes := st.change_history.drop (st.change_history.length - 2)
    current_names := pyKeys st.current_tools
    previous_names := pyKeys st.previous_tools }

/-- Reachable states of a ToolChangeManager: the fresh instance, and any
state produced from a reachable one by update_tools called at a timestamp
not earlier than the clock of the previous step (datetime.now() is
monotone). -/
inductive Reachable : Nat → ToolChangeManager → Prop where
  | init : Reachable 0 ToolChangeManager.init
  | step (clk ts : Nat) (st : ToolChangeManager)
      (existingToolsDesc newToolsDesc : Snapshot) :
      Reachable clk st → clk ≤ ts →
      Reachable ts (update_tools ts existingToolsDesc newToolsDesc st).1

end AutoLabMCP

namespace AutoLabMCP

/-!
Embedding of DynamicToolLoader.register_tools_to_mcp
(src/dynamic_mcp_server.py, lines 237-283).

The MCP registry (mcp._tool_manager._tools) maps a tool name to a
FunctionTool; its model_dump is the descriptor dict plus the "fn" callable.
A registered tool is modelled as its fn-free descriptor plus the identity of
the bound proxy callable.  mcp.remove_tool deletes the entry;
mcp.add_tool appends a fresh entry, so re-registration moves the entry to
the end of the dict, exactly as in the source.
-/

/-- One FunctionTool held by the MCP registry: its serialized descriptor
(model_dump minus "fn") and the identity of the proxy bound as fn. -/
structure RegisteredTool : Type where
  desc : Desc
  fn : Nat
  deriving DecidableEq

/-- The dict mcp._tool_manager._tools. -/
abbrev Registry : Type := List (String × RegisteredTool)

/-- One entry of the dict produced by scan_and_load_tools: the loader
script's descriptor (tool_data) and the created proxy. -/
structure LoadedTool : Type where
  tool_data : Desc
  proxy : Nat
  deriving DecidableEq

/-- The dict returned by scan_and_load_tools. -/
abbrev LoadedTools : Type := List (String × LoadedTool)

/-- Descriptor recorded for a freshly registered tool: tool_data minus the
provenance keys dropped before FunctionTool.model_validate and minus the
"fn" key deleted after model_dump. -/
def registeredDescOf (toolData : Desc) : Desc :=
  toolData.filter (fun p =>
    !(["source_module", "function_name", "tool_name_prefix", "fn"].contains p.1))

/-- Registry update for one tool: mcp.remove_tool when present, then
mcp.add_tool. -/
def registryAdd (reg : Registry) (name : String) (t : RegisteredTool) :
    Registry :=
  (reg.filter (fun p => p.1 ≠ name)) ++ [(name, t)]

/-- Registry removal (mcp.remove_tool; removing an absent name is caught
and ignored in the source). -/
def registryRemove (reg : Registry) (name : String) : Registry :=
  reg.filter (fun p => p.1 ≠ name)

/-- Embeds DynamicToolLoader.register_tools_to_mcp.  Inputs: the name of
the loader's tools directory (self.tools_dir.name), the freshly loaded
tools, the optional request_tool_name, the current registry, the change
manager and the current time.  In the source request_tool_dir is a string
in both branches (never None), so the `request_tool_dir is not None` half
of the skip test is always true; the skip therefore fires exactly when the
name does not start with request_tool_dir followed by a period. -/
def register_tools_to_mcp (toolsDirName : String) (tools : LoadedTools)
    (request_tool_name : Option String) (reg : Registry)
    (cm : ToolChangeManager) (ts : Nat) :
    Registry × ToolChangeManager × Changes :=
  let existing_tools_desc : Snapshot :=
    reg.filterMap (fun p =>
      if strContainsDash p.1 then some (p.1, p.2.desc) else none)
  let request_tool_dir : String :=
    match request_tool_name with
    | some n => splitDashHead n
    | none => toolsDirName
  let new_tools_desc : Snapshot :=
    tools.map (fun p => (p.1, registeredDescOf p.2.tool_data))
  let reg1 : Registry :=
    tools.foldl (fun r p =>
      registryAdd r p.1 ⟨registeredDescOf p.2.tool_data, p.2.proxy⟩) reg
  let reg2 : Registry :=
    existing_tools_desc.foldl (fun r p =>
      if !(pyMem tools p.1) && strContainsDash p.1 then
        if !(strStartsWith p.1 (request_tool_dir ++ ".")) then r
        else registryRemove r p.1
      else r) reg1
  let updated := update_tools ts existing_tools_desc new_tools_desc cm
  (reg2, updated.1, updated.2)

end AutoLabMCP

namespace AutoLabMCP

/-!
Embedding of src/tools/tool_execution_script.py (the execution worker).

A loaded Python module is its namespace: names bound either to a function
(modelled by its call behavior) or to a non-callable attribute.  A function
call either returns a Python object or raises; a returned object is either
JSON-serializable (a PyJson) or not, in which case only its str() form
matters to the worker.
-/

/-- A Python object returned by a tool function: JSON-serializable or not
(carrying its str() form). -/
inductive PyObjRet : Type where
  | js : PyJson → PyObjRet
  | nonSerializable : String → PyObjRet

/-- Outcome of calling a tool function with concrete arguments. -/
inductive FuncOutcome : Type where
  | ret : PyObjRet → FuncOutcome
  | exn : String → String → FuncOutcome

/-- Call behavior of a Python function: positional args and keyword args to
an outcome. -/
abbrev FuncBehavior : Type :=
  List PyJson → List (String × PyJson) → FuncOutcome

/-- A member of a module namespace: a callable function or some other
attribute. -/
inductive ModuleMember : Type where
  | func : FuncBehavior → ModuleMember
  | attr : PyJson → ModuleMember

/-- A loaded module: its namespace as a dict. -/
abbrev PyModule : Type := List (String × ModuleMember)

/-- Embeds serialize_result: a JSON-serializable object passes through
unchanged; any other object is coerced to its str() form. -/
def serialize_result (o : PyObjRet) : PyJson :=
  match o with
  | .js j => j
  | .nonSerializable s => PyJson.str s

/-- An apostrophe character, used by the Python repr of a string list. -/
def squoteStr : String := String.singleton (Char.ofNat 39)

/-- Python repr of a list of strings, as interpolated into the
worker's Function-not-found message. -/
def pyReprStrList (l : List String) : String :=
  "[" ++ String.intercalate ", " (l.map (fun s => squoteStr ++ s ++ squoteStr))
    ++ "]"

/-- Names listed by `dir(module)` and kept by the worker: the sorted module
namespace filtered to names that do not start with an underscore. -/
def availableFunctions (m : PyModule) : List String :=
  ((pyKeys m).mergeSort (fun a b => decide (a ≤ b))).filter
    (fun n => !(strStartsWith n "_"))

/-- Result object printed by the worker as its single JSON line. -/
inductive ExecResult : Type where
  | success : PyJson → ExecResult
  | failure : String → Option String → ExecResult
  deriving Inhabited

/-- Embeds execute_tool of tool_execution_script.py, from the point where
the module has been imported (the earlier module-file-missing and
import-failure branches concern the filesystem, not the module contents). -/
def execute_tool (m : PyModule) (function_name : String)
    (args : List PyJson) (kwargs : List (String × PyJson)) : ExecResult :=
  match pyLookup m function_name with
  | none =>
      ExecResult.failure
        ("Function " ++ function_name ++
          " not found in module. Available functions: " ++
          pyReprStrList (availableFunctions m)) none
  | some (ModuleMember.attr _) =>
      ExecResult.failure (function_name ++ " is not callable") none
  | some (ModuleMember.func f) =>
      match f args kwargs with
      | FuncOutcome.ret o => ExecResult.success (serialize_result o)
      | FuncOutcome.exn e tb => ExecResult.failure e (some tb)

end AutoLabMCP

namespace AutoLabMCP

/-!
Embedding of ToolProxy.__call__ (src/tools/tool_proxy.py, lines 43-81),
from the point where the worker subprocess has produced its stdout.
json.loads either fails (the raw text is returned unchanged) or yields a
JSON value; the worker contract makes that value an object, and on any
other value the source would raise AttributeError at output.get, which the
claims do not touch, so the parsed case carries the object's fields.
-/

/-- The proxy's view of the worker stdout after json.loads. -/
inductive WorkerStdout : Type where
  | objOut : List (String × PyJson) → WorkerStdout
  | notJson : String → WorkerStdout

/-- Python truthiness of a JSON value, as tested by
`if output.get("success"):`. -/
def pyTruthy (v : PyJson) : Bool :=
  match v with
  | PyJson.null => false
  | PyJson.bool b => b
  | PyJson.num n => decide (n ≠ 0)
  | PyJson.str s => decide (s ≠ "")
  | PyJson.arr l => !l.isEmpty
  | PyJson.obj l => !l.isEmpty

mutual

/-- Python str() of a JSON value, as interpolated by the f-string building
the proxy's execution-error message. -/
def pyStrOf : PyJson → String
  | PyJson.null => "None"
  | PyJson.bool true => "True"
  | PyJson.bool false => "False"
  | PyJson.num n => toString n
  | PyJson.str s => s
  | PyJson.arr l => "[" ++ pyStrOfList l ++ "]"
  | PyJson.obj l => "\x7b" ++ pyStrOfObj l ++ "\x7d"

/-- Comma-joined repr of array elements. -/
def pyStrOfList : List PyJson → String
  | [] => ""
  | [v] => pyStrOf v
  | v :: rest => pyStrOf v ++ ", " ++ pyStrOfList rest

/-- Comma-joined repr of object fields. -/
def pyStrOfObj : List (String × PyJson) → String
  | [] => ""
  | [(k, v)] => squoteStr ++ k ++ squoteStr ++ ": " ++ pyStrOf v
  | (k, v) :: rest =>
      squoteStr ++ k ++ squoteStr ++ ": " ++ pyStrOf v ++ ", " ++
        pyStrOfObj rest

end

/-- Outcome of one proxy invocation. -/
inductive CallOutcome : Type where
  | ret : PyJson → CallOutcome
  | retRaw : String → CallOutcome
  | raiseError : String → CallOutcome
  | keyErr : CallOutcome
  deriving DecidableEq

/-- Embeds the stdout-handling tail of ToolProxy.__call__: parse failure
returns the raw stdout; a truthy "success" returns output["result"] (a
KeyError escaping when absent); otherwise a RuntimeError carrying the
worker's error text and traceback is raised. -/
def ToolProxy.call (out : WorkerStdout) : CallOutcome :=
  match out with
  | WorkerStdout.notJson raw => CallOutcome.retRaw raw
  | WorkerStdout.objOut fields =>
      if pyTruthy (pyGetD fields "success" PyJson.null) then
        match pyLookup fields "result" with
        | some v => CallOutcome.ret v
        | none => CallOutcome.keyErr
      else
        CallOutcome.raiseError
          ("Tool execution error: " ++
            pyStrOf (pyGetD fields "error" (PyJson.str "")) ++ "\n" ++
            pyStrOf (pyGetD fields "traceback" (PyJson.str "")))

end AutoLabMCP

namespace AutoLabMCP

/-!
Heap model for the descriptor-aliasing claim.

load_all_tools (src/tools/tool_env_manager.py, lines 346-403) stores the
very descriptor dicts parsed from the introspection worker both in
tools_cache (through update_tool_cache) and in its returned tools dict;
register_tools_to_mcp (src/dynamic_mcp_server.py, line 250) then mutates
those dicts in place with tool_data["fn"] = proxy.__call__.  To express the
sharing, descriptor dicts live in an explicit heap and all structures hold
addresses.
-/

/-- Heap address of one descriptor dict object. -/
abbrev Addr : Type := Nat

/-- A value stored in a descriptor dict: a serializable JSON value, or the
non-serializable bound method proxy.__call__ installed under "fn". -/
inductive DescVal : Type where
  | js : PyJson → DescVal
  | fnBound : Nat → DescVal
  deriving DecidableEq

/-- A descriptor dict object on the heap. -/
abbrev HDesc : Type := List (String × DescVal)

/-- The heap: address to descriptor dict. -/
abbrev Heap : Type := List (Addr × HDesc)

/-- Heap read. -/
def heapLookup (h : Heap) (a : Addr) : Option HDesc :=
  List.lookup a h

/-- Heap write at an existing address. -/
def heapSet (h : Heap) (a : Addr) (d : HDesc) : Heap :=
  h.map (fun p => if p.1 = a then (a, d) else p)

/-- An address not used by the heap. -/
def freshAddr (h : Heap) : Addr :=
  (h.map Prod.fst).foldr (fun a m => max a m) 0 + 1

/-- Allocate a list of descriptor dicts (the list parsed from the
introspection worker's stdout consists of fresh objects). -/
def heapAllocList (h : Heap) : List HDesc → Heap × List Addr
  | [] => (h, [])
  | d :: rest =>
      let a := freshAddr h
      let r := heapAllocList (h ++ [(a, d)]) rest
      (r.1, a :: r.2)

/-- The "name" field of a descriptor dict (tool_metadata["name"]). -/
def descName (d : HDesc) : String :=
  match pyLookup d "name" with
  | some (DescVal.js (PyJson.str s)) => s
  | _ => ""

/-- Cache entry of ToolEnvironmentManager.tools_cache in the heap model:
the stored list aliases the descriptor objects by address. -/
structure EnvCacheEntry : Type where
  tools : List Addr
  fileMtimes : List (String × Nat)
  lastLoaded : Nat
  deriving DecidableEq

/-- The tools_cache dict in the heap model. -/
abbrev EnvCache : Type := List (String × EnvCacheEntry)

/-- Embeds the cache-miss path of load_all_tools for one plugin directory:
the introspection result descs is allocated, update_tool_cache stores the
same objects, and the returned all_tools dict maps each descriptor's name
to the same object.  Returns (heap, cache, all_tools). -/
def load_plugin_fresh (h : Heap) (cache : EnvCache) (plugin : String)
    (d : ToolDirState) (now : Nat) (descs : List HDesc) :
    Heap × EnvCache × List (String × Addr) :=
  let alloc := heapAllocList h descs
  let all_tools :=
    (descs.zip alloc.2).foldl
      (fun acc p => pySet acc (descName p.1) p.2) []
  let cache1 :=
    pySet cache plugin
      { tools := alloc.2
        fileMtimes := get_tool_file_info d
        lastLoaded := now }
  (alloc.1, cache1, all_tools)

/-- The current "name" field of the descriptor object at an address. -/
def heapDescName (h : Heap) (a : Addr) : String :=
  match heapLookup h a with
  | some dd => descName dd
  | none => ""

/-- Embeds the cache-hit path of load_all_tools for one plugin directory:
the cached addresses are returned, keyed by each descriptor's current
"name" field. -/
def load_plugin_cached (h : Heap) (cache : EnvCache) (plugin : String) :
    List (String × Addr) :=
  match pyLookup cache plugin with
  | some entry =>
      entry.tools.foldl (fun acc a => pySet acc (heapDescName h a) a) []
  | none => []

/-- Embeds the mutation performed by register_tools_to_mcp on each loaded
tool: tool_data["fn"] = proxy.__call__, on the shared descriptor object. -/
def register_mutate_fn (h : Heap) (loaded : List (String × Addr))
    (proxyOf : String → Nat) : Heap :=
  loaded.foldl
    (fun hh p =>
      match heapLookup hh p.2 with
      | some dd => heapSet hh p.2 (pySet dd "fn" (DescVal.fnBound (proxyOf p.1)))
      | none => hh)
    h

end AutoLabMCP

namespace AutoLabMCP

/-!
Remaining definitions used by the theorems below.
-/

/-- Boundedness of the change history over all reachable change-tracker
states (the "bounded chronological log" reading of the specification). -/
def changeHistoryBounded : Prop :=
  ∃ B : Nat, ∀ (clk : Nat) (st : ToolChangeManager),
    Reachable clk st → st.change_history.length ≤ B

/-- A run of the change tracker that records one change per step by
alternating between a one-tool snapshot and an empty snapshot. -/
def historyRun : Nat → ToolChangeManager
  | 0 => ToolChangeManager.init
  | n + 1 =>
      (update_tools (n + 1)
        (if n % 2 = 0 then [("a-f", [])] else [])
        (if n % 2 = 0 then [] else [("a-f", [])])
        (historyRun n)).1

/-- A module defining a single public function add returning 5, used to
instantiate the execution-worker theorem. -/
def sampleModule : PyModule :=
  [("add", ModuleMember.func (fun _ _ => FuncOutcome.ret (PyObjRet.js (PyJson.num 5))))]

/-- Names of the modified tools in a Changes value. -/
def modifiedNames (c : Changes) : List String :=
  c.modified.map ModifiedEntry.name

end AutoLabMCP

namespace AutoLabMCP

/-!
Helper lemmas about the Python-dict operations.
-/

theorem pyLookup_cons (p : String × α) (l : List (String × α)) (k : String) :
    pyLookup (p :: l) k = if k = p.1 then some p.2 else pyLookup l k := by
  cases p with
  | mk k1 v =>
      simp only [pyLookup, List.lookup]
      by_cases h : k = k1
      · simp [h]
      · simp [h, beq_eq_false_iff_ne.mpr h]

theorem pyMem_iff_mem_pyKeys (l : List (String × α)) (k : String) :
    pyMem l k = true ↔ k ∈ pyKeys l := by
  induction l with
  | nil => simp [pyMem, pyLookup, pyKeys]
  | cons p t ih =>
      by_cases h : k = p.1
      · simp [pyMem, pyLookup_cons, pyKeys, h]
      · simp only [pyMem, pyLookup_cons, if_neg h, pyKeys, List.map_cons,
          List.mem_cons]
        rw [← pyKeys, ← pyMem]
        simp [ih, h]

theorem pyMem_false_iff (l : List (String × α)) (k : String) :
    pyMem l k = false ↔ k ∉ pyKeys l := by
  rw [← Bool.not_eq_true, not_iff_not]
  exact pyMem_iff_mem_pyKeys l k

theorem pyLookup_mem (l : List (String × α)) (k : String) (v : α)
    (h : pyLookup l k = some v) : (k, v) ∈ l := by
  induction l with
  | nil => simp [pyLookup, List.lookup] at h
  | cons p t ih =>
      rw [pyLookup_cons] at h
      by_cases hk : k = p.1
      · rw [if_pos hk] at h
        cases p
        cases h
        simp_all
      · rw [if_neg hk] at h
        exact List.mem_cons_of_mem _ (ih h)

theorem pyLookup_isSome_of_mem (l : List (String × α)) (k : String) (v : α)
    (h : (k, v) ∈ l) : (pyLookup l k).isSome = true := by
  induction l with
  | nil => cases h
  | cons p t ih =>
      rw [pyLookup_cons]
      by_cases hk : k = p.1
      · simp [hk]
      · rcases List.mem_cons.mp h with h1 | h1
        · cases h1; simp at hk
        · simp [hk, ih h1]

theorem pyLookup_of_mem_nodup (l : List (String × α)) (k : String) (v : α)
    (hnd : (pyKeys l).Nodup) (h : (k, v) ∈ l) : pyLookup l k = some v := by
  induction l with
  | nil => cases h
  | cons p t ih =>
      rw [pyLookup_cons]
      rcases List.mem_cons.mp h with h1 | h1
      · cases h1; simp
      · have hk : k ≠ p.1 := by
          intro he
          have : k ∈ pyKeys t := by
            simpa [pyKeys] using List.mem_map_of_mem Prod.fst h1
          rw [pyKeys, List.map_cons] at hnd
          exact (List.nodup_cons.mp hnd).1 (he ▸ this)
        rw [if_neg hk]
        exact ih (by
          rw [pyKeys, List.map_cons] at hnd
          exact (List.nodup_cons.mp hnd).2) h1

theorem pyLookup_pyDel_self (l : List (String × α)) (k : String) :
    pyLookup (pyDel l k) k = none := by
  induction l with
  | nil => rfl
  | cons p t ih =>
      by_cases h : p.1 = k
      · simpa [pyDel, h] using ih
      · simpa [pyDel, h, pyLookup_cons, Ne.symm h] using ih

theorem pyLookup_pyDel_ne (l : List (String × α)) (k m : String)
    (h : m ≠ k) : pyLookup (pyDel l k) m = pyLookup l m := by
  induction l with
  | nil => rfl
  | cons p t ih =>
      by_cases hp : p.1 = k
      · rw [pyDel, List.filter_cons]
        simp only [hp]
        simpa [pyLookup_cons, hp, h, pyDel] using ih
      · rw [pyDel, List.filter_cons]
        simp only [decide_not, hp]
        simp only [pyLookup_cons]
        by_cases hm : m = p.1
        · simp [hm, hp, pyLookup_cons]
        · simpa [hm, hp, pyDel, pyLookup_cons] using ih

theorem pyLookup_append (l1 l2 : List (String × α)) (k : String) :
    pyLookup (l1 ++ l2) k =
      (match pyLookup l1 k with
        | some v => some v
        | none => pyLookup l2 k) := by
  induction l1 with
  | nil => simp [pyLookup, List.lookup]
  | cons p t ih =>
      rw [List.cons_append, pyLookup_cons, pyLookup_cons]
      by_cases hk : k = p.1
      · simp [hk]
      · simp only [if_neg hk]
        exact ih

theorem pyLookup_replace_self (l : List (String × α)) (k : String) (v : α)
    (h : pyMem l k = true) :
    pyLookup (l.map (fun p => if p.1 = k then (k, v) else p)) k = some v := by
  induction l with
  | nil => simp [pyMem, pyLookup, List.lookup] at h
  | cons p t ih =>
      rw [List.map_cons]
      by_cases hp : p.1 = k
      · rw [if_pos hp, pyLookup_cons]
        simp
      · rw [if_neg hp, pyLookup_cons, if_neg (fun he => hp he.symm)]
        refine ih ?_
        rw [pyMem, pyLookup_cons, if_neg (fun he => hp he.symm)] at h
        exact h

theorem pyLookup_replace_ne (l : List (String × α)) (k m : String) (v : α)
    (h : m ≠ k) :
    pyLookup (l.map (fun p => if p.1 = k then (k, v) else p)) m =
      pyLookup l m := by
  induction l with
  | nil => rfl
  | cons p t ih =>
      rw [List.map_cons]
      by_cases hp : p.1 = k
      · rw [if_pos hp, pyLookup_cons, pyLookup_cons, if_neg h,
          if_neg (fun he => h (he.trans hp)), ih]
      · rw [if_neg hp, pyLookup_cons, pyLookup_cons]
        by_cases hm : m = p.1
        · simp [hm]
        · rw [if_neg hm, if_neg hm, ih]

theorem pyLookup_pySet_self (l : List (String × α)) (k : String) (v : α) :
    pyLookup (pySet l k v) k = some v := by
  rw [pySet]
  by_cases h : pyMem l k = true
  · rw [if_pos h]
    exact pyLookup_replace_self l k v h
  · rw [if_neg h, pyLookup_append]
    have hn : pyLookup l k = none := by
      rw [pyMem] at h
      exact Option.not_isSome_iff_eq_none.mp h
    rw [hn]
    simp [pyLookup_cons]

theorem pyLookup_pySet_ne (l : List (String × α)) (k m : String) (v : α)
    (h : m ≠ k) : pyLookup (pySet l k v) m = pyLookup l m := by
  rw [pySet]
  by_cases hm : pyMem l k = true
  · rw [if_pos hm]
    exact pyLookup_replace_ne l k m v h
  · rw [if_neg hm, pyLookup_append]
    cases hl : pyLookup l m with
    | some w => rfl
    | none => simp [pyLookup_cons, h, pyLookup, List.lookup,
        beq_eq_false_iff_ne.mpr h]

end AutoLabMCP

namespace AutoLabMCP

/-!
Claim theorems about the environment manager's cache and directory scan.
-/

theorem pyKeys_get_tool_file_info_nodup (d : ToolDirState) :
    (pyKeys (get_tool_file_info d)).Nodup := by
  cases d with
  | mk t r =>
      cases t <;> cases r <;> simp [get_tool_file_info, pyKeys]

theorem exists_pyLookup_of_mem_pyKeys (l : List (String × α)) (k : String)
    (h : k ∈ pyKeys l) : ∃ v, pyLookup l k = some v := by
  have := (pyMem_iff_mem_pyKeys l k).mpr h
  rw [pyMem] at this
  exact Option.isSome_iff_exists.mp this

theorem mem_pyKeys_of_pyLookup (l : List (String × α)) (k : String) (v : α)
    (h : pyLookup l k = some v) : k ∈ pyKeys l := by
  exact (pyMem_iff_mem_pyKeys l k).mp (by rw [pyMem, h]; rfl)

theorem exists_pair_of_mem_pyKeys (l : List (String × α)) (k : String)
    (h : k ∈ pyKeys l) : ∃ v, (k, v) ∈ l := by
  rcases List.mem_map.mp h with ⟨p, hp, he⟩
  exact ⟨p.2, by cases p; cases he; exact hp⟩

/-- Claim C2: is_tool_cache_valid holds exactly when a cache entry exists,
its tracked-file set equals the current on-disk set, and no tracked file is
newer than recorded. -/
theorem is_tool_cache_valid_iff (cache : ToolsCache) (toolName : String)
    (d : ToolDirState) :
    is_tool_cache_valid cache toolName d = true ↔
      ∃ entry, pyLookup cache toolName = some entry ∧
        (∀ f, f ∈ pyKeys (get_tool_file_info d) ↔ f ∈ pyKeys entry.fileMtimes) ∧
        (∀ f m cm, pyLookup (get_tool_file_info d) f = some m →
          pyLookup entry.fileMtimes f = some cm → m ≤ cm) := by
  rw [is_tool_cache_valid]
  cases hc : pyLookup cache toolName with
  | none =>
      simp only [Bool.false_eq_true, false_iff]
      rintro ⟨entry, he, -⟩
      cases he
  | some entry =>
      simp only [Bool.and_eq_true, List.all_eq_true]
      constructor
      · rintro ⟨h1, h2⟩
        refine ⟨entry, rfl, ?_, ?_⟩
        · intro f
          constructor
          · intro hf
            rcases exists_pair_of_mem_pyKeys _ f hf with ⟨m, hm⟩
            have := h1 (f, m) hm
            cases hl : pyLookup entry.fileMtimes f with
            | none => rw [hl] at this; simp at this
            | some cm => exact mem_pyKeys_of_pyLookup _ f cm hl
          · intro hf
            rcases exists_pair_of_mem_pyKeys _ f hf with ⟨m, hm⟩
            have := h2 (f, m) hm
            exact (pyMem_iff_mem_pyKeys _ f).mp this
        · intro f m cm hm hcm
          have := h1 (f, m) (pyLookup_mem _ f m hm)
          rw [hcm] at this
          simpa using this
      · rintro ⟨entry2, he, hkeys, hmt⟩
        have hee : entry2 = entry := (Option.some.inj he).symm
        subst hee
        constructor
        · rintro ⟨f, m⟩ hm
          have hf : f ∈ pyKeys entry2.fileMtimes :=
            (hkeys f).mp (mem_pyKeys_of_pyLookup _ f m
              (pyLookup_of_mem_nodup _ f m (pyKeys_get_tool_file_info_nodup d) hm))
          rcases exists_pyLookup_of_mem_pyKeys _ f hf with ⟨cm, hcm⟩
          rw [hcm]
          have hle := hmt f m cm
            (pyLookup_of_mem_nodup _ f m (pyKeys_get_tool_file_info_nodup d) hm) hcm
          simpa using hle
        · rintro ⟨f, cm⟩ hm
          have hf : f ∈ pyKeys (get_tool_file_info d) :=
            (hkeys f).mpr (by
              simpa [pyKeys] using List.mem_map_of_mem Prod.fst hm)
          exact (pyMem_iff_mem_pyKeys _ f).mpr hf

/-- Witness instantiating is_tool_cache_valid_iff on a concrete cache. -/
theorem is_tool_cache_valid_iff_witness :
    is_tool_cache_valid
      [("calc", { tools := [], fileMtimes := [("tool.py", 5)], lastLoaded := 9 })]
      "calc" { toolPyMtime := some 5, requirementsMtime := none } = true :=
  (is_tool_cache_valid_iff _ "calc" _).mpr
    ⟨{ tools := [], fileMtimes := [("tool.py", 5)], lastLoaded := 9 },
      rfl, fun _ => Iff.rfl,
      fun _ m cm h1 h2 => by
        injection h1.symm.trans h2 with h
        exact Nat.le_of_eq h⟩

/-- Counterexample to claim C4 as stated: a directory named my-tool is
enumerated by the scan although its name does not match the
letter-then-word-characters pattern. -/
theorem get_tool_directories_pattern_counterexample :
    (⟨"my-tool", true⟩ : DirEntry) ∈
        get_tool_directories [⟨"my-tool", true⟩] ∧
      matchesEnvNamePattern "my-tool" = false := by
  constructor
  · simp [get_tool_directories, List.mem_filter]
    decide
  · decide

/-- Claim C4 (amended): the scan enumerates exactly the directories whose
name does not start with an underscore and is not __pycache__; no name
pattern is enforced there. -/
theorem get_tool_directories_spec (root : List DirEntry) (e : DirEntry) :
    e ∈ get_tool_directories root ↔
      e ∈ root ∧ e.isDir = true ∧ strStartsWith e.name "_" = false ∧
        e.name ≠ "__pycache__" := by
  simp only [get_tool_directories, List.mem_filter, Bool.and_eq_true,
    Bool.not_eq_true', decide_eq_true_eq, decide_not]
  constructor
  · rintro ⟨h1, ⟨h2, h3⟩, h4⟩
    exact ⟨h1, h2, h3, by simpa using h4⟩
  · rintro ⟨h1, h2, h3, h4⟩
    exact ⟨h1, ⟨h2, h3⟩, by simpa using h4⟩

/-- Claim C10: invalidate_tool_cache and clear_cache on a named plugin
remove exactly that entry and report success iff it was cached; a miss
leaves the cache unchanged and reports failure. -/
theorem cache_invalidation_spec (cache : ToolsCache) (n : String) :
    ((invalidate_tool_cache cache n).1 = true ↔ pyMem cache n = true) ∧
    ((clear_cache cache (some n)).1 = ClearStatus.success ↔
      pyMem cache n = true) ∧
    (clear_cache cache (some n)).2 = (invalidate_tool_cache cache n).2 ∧
    pyLookup (invalidate_tool_cache cache n).2 n = none ∧
    (∀ m, m ≠ n →
      pyLookup (invalidate_tool_cache cache n).2 m = pyLookup cache m) ∧
    (pyMem cache n = false →
      (invalidate_tool_cache cache n).2 = cache ∧
      (invalidate_tool_cache cache n).1 = false ∧
      (clear_cache cache (some n)).1 = ClearStatus.warning) := by
  by_cases h : pyMem cache n = true
  · refine ⟨by simp [invalidate_tool_cache, h],
      by simp [clear_cache, h],
      by simp [clear_cache, invalidate_tool_cache, h],
      by simp [invalidate_tool_cache, h, pyLookup_pyDel_self],
      fun m hm => by simp [invalidate_tool_cache, h, pyLookup_pyDel_ne _ _ _ hm],
      fun hf => by rw [h] at hf; cases hf⟩
  · have hf : pyMem cache n = false := by simpa using h
    refine ⟨by simp [invalidate_tool_cache, hf],
      by simp [clear_cache, hf],
      by simp [clear_cache, invalidate_tool_cache, hf],
      ?_,
      fun m hm => by simp [invalidate_tool_cache, hf],
      fun _ => by simp [invalidate_tool_cache, clear_cache, hf]⟩
    rw [invalidate_tool_cache]
    simp only [hf, Bool.false_eq_true, if_false]
    rw [pyMem] at hf
    exact Option.not_isSome_iff_eq_none.mp (by simp [hf])

/-- Witness instantiating cache_invalidation_spec on a concrete cache. -/
theorem cache_invalidation_spec_witness :
    pyLookup
        (invalidate_tool_cache
          [("calc", { tools := [], fileMtimes := [], lastLoaded := 0 })]
          "calc").2 "web" =
      pyLookup
        [("calc",
          ({ tools := [], fileMtimes := [], lastLoaded := 0 } : CacheEntry))]
        "web" :=
  (cache_invalidation_spec
    [("calc", { tools := [], fileMtimes := [], lastLoaded := 0 })]
    "calc").2.2.2.2.1 "web" (by decide)

end AutoLabMCP

namespace AutoLabMCP

/-!
Claim theorems about the change tracker's diff computation.
-/

theorem pyMem_false_iff_lookup_none (l : List (String × α)) (k : String) :
    pyMem l k = false ↔ pyLookup l k = none := by
  rw [pyMem]
  cases pyLookup l k <;> simp

theorem mem_added_iff (previous current : Snapshot) (n : String) (d : Desc) :
    (n, d) ∈ (detect_changes previous current).added ↔
      (n, d) ∈ current ∧ pyLookup previous n = none := by
  simp only [detect_changes, List.mem_filterMap]
  constructor
  · rintro ⟨⟨n1, d1⟩, hmem, hf⟩
    by_cases hm : pyMem previous n1 = true
    · rw [if_pos hm] at hf; cases hf
    · rw [if_neg hm] at hf
      cases hf
      exact ⟨hmem, (pyMem_false_iff_lookup_none _ _).mp (by simpa using hm)⟩
  · rintro ⟨hmem, hl⟩
    refine ⟨(n, d), hmem, ?_⟩
    rw [if_neg ?_]
    intro hm
    rw [(pyMem_false_iff_lookup_none _ _).mpr hl] at hm
    cases hm

theorem mem_removed_iff (previous current : Snapshot) (n : String) (d : Desc) :
    (n, d) ∈ (detect_changes previous current).removed ↔
      (n, d) ∈ previous ∧ pyLookup current n = none := by
  simp only [detect_changes, List.mem_filterMap]
  constructor
  · rintro ⟨⟨n1, d1⟩, hmem, hf⟩
    by_cases hm : pyMem current n1 = true
    · rw [if_pos hm] at hf; cases hf
    · rw [if_neg hm] at hf
      cases hf
      exact ⟨hmem, (pyMem_false_iff_lookup_none _ _).mp (by simpa using hm)⟩
  · rintro ⟨hmem, hl⟩
    refine ⟨(n, d), hmem, ?_⟩
    rw [if_neg ?_]
    intro hm
    rw [(pyMem_false_iff_lookup_none _ _).mpr hl] at hm
    cases hm

theorem mem_modified_iff (previous current : Snapshot) (e : ModifiedEntry)
    (hcur : (pyKeys current).Nodup) :
    e ∈ (detect_changes previous current).modified ↔
      pyLookup previous e.name = some e.previous ∧
      pyLookup current e.name = some e.current ∧
      e.previous ≠ e.current ∧
      e.differences = get_detailed_diff e.previous e.current := by
  simp only [detect_changes, List.mem_filterMap]
  constructor
  · rintro ⟨⟨n, d⟩, hmem, hf⟩
    cases hl : pyLookup previous n with
    | none =>
        simp only [hl] at hf
        cases hf
    | some pd =>
        simp only [hl] at hf
        by_cases hne : pd ≠ d
        · rw [if_pos hne] at hf
          cases hf
          exact ⟨hl, pyLookup_of_mem_nodup _ _ _ hcur hmem, hne, rfl⟩
        · rw [if_neg hne] at hf
          cases hf
  · rintro ⟨h1, h2, h3, h4⟩
    refine ⟨(e.name, e.current), pyLookup_mem _ _ _ h2, ?_⟩
    simp only [h1]
    rw [if_pos h3]
    cases e
    simp_all

theorem mem_get_detailed_diff (oldDesc newDesc : Desc) (k : String)
    (ov nv : PyJson) :
    (k, ov, nv) ∈ get_detailed_diff oldDesc newDesc ↔
      ov = pyGetNull oldDesc k ∧ nv = pyGetNull newDesc k ∧ ov ≠ nv := by
  simp only [get_detailed_diff, List.mem_filterMap]
  constructor
  · rintro ⟨k1, hk1, hf⟩
    by_cases hne : pyGetNull oldDesc k1 ≠ pyGetNull newDesc k1
    · rw [if_pos hne] at hf
      cases hf
      exact ⟨rfl, rfl, hne⟩
    · rw [if_neg hne] at hf
      cases hf
  · rintro ⟨ho, hn, hne⟩
    subst ho; subst hn
    refine ⟨k, ?_, ?_⟩
    · rw [descAllKeys, List.mem_dedup, List.mem_append]
      by_cases h1 : k ∈ pyKeys oldDesc
      · exact Or.inl h1
      · right
        by_cases h2 : k ∈ pyKeys newDesc
        · exact h2
        · exfalso
          have e1 : pyLookup oldDesc k = none := by
            rw [← pyMem_false_iff_lookup_none, pyMem_false_iff]
            exact h1
          have e2 : pyLookup newDesc k = none := by
            rw [← pyMem_false_iff_lookup_none, pyMem_false_iff]
            exact h2
          rw [pyGetNull, pyGetNull, e1, e2] at hne
          exact hne rfl
    · rw [if_pos hne]

end AutoLabMCP


namespace AutoLabMCP

theorem pyKeys_iff_added (previous current : Snapshot)
    (_hc : (pyKeys current).Nodup) (n : String) :
    n ∈ pyKeys (detect_changes previous current).added ↔
      n ∈ pyKeys current ∧ pyLookup previous n = none := by
  constructor
  · intro h
    rcases exists_pair_of_mem_pyKeys _ n h with ⟨d, hd⟩
    rcases (mem_added_iff previous current n d).mp hd with ⟨h1, h2⟩
    exact ⟨by simpa [pyKeys] using List.mem_map_of_mem Prod.fst h1, h2⟩
  · rintro ⟨h1, h2⟩
    rcases exists_pair_of_mem_pyKeys _ n h1 with ⟨d, hd⟩
    exact List.mem_map_of_mem Prod.fst
      ((mem_added_iff previous current n d).mpr ⟨hd, h2⟩)

theorem pyKeys_iff_removed (previous current : Snapshot) (n : String) :
    n ∈ pyKeys (detect_changes previous current).removed ↔
      n ∈ pyKeys previous ∧ pyLookup current n = none := by
  constructor
  · intro h
    rcases exists_pair_of_mem_pyKeys _ n h with ⟨d, hd⟩
    rcases (mem_removed_iff previous current n d).mp hd with ⟨h1, h2⟩
    exact ⟨by simpa [pyKeys] using List.mem_map_of_mem Prod.fst h1, h2⟩
  · rintro ⟨h1, h2⟩
    rcases exists_pair_of_mem_pyKeys _ n h1 with ⟨d, hd⟩
    exact List.mem_map_of_mem Prod.fst
      ((mem_removed_iff previous current n d).mpr ⟨hd, h2⟩)

theorem mem_modifiedNames_iff (previous current : Snapshot)
    (hc : (pyKeys current).Nodup) (n : String) :
    n ∈ modifiedNames (detect_changes previous current) ↔
      ∃ pd cd, pyLookup previous n = some pd ∧ pyLookup current n = some cd ∧
        pd ≠ cd := by
  rw [modifiedNames]
  constructor
  · intro h
    rcases List.mem_map.mp h with ⟨e, he, hname⟩
    rcases (mem_modified_iff previous current e hc).mp he with ⟨h1, h2, h3, -⟩
    exact ⟨e.previous, e.current, hname ▸ h1, hname ▸ h2, h3⟩
  · rintro ⟨pd, cd, h1, h2, h3⟩
    refine List.mem_map.mpr
      ⟨{ name := n, previous := pd, current := cd,
          differences := get_detailed_diff pd cd }, ?_, rfl⟩
    exact (mem_modified_iff previous current _ hc).mpr ⟨h1, h2, h3, rfl⟩

/-- Claim C5: detect_changes computes added as current-minus-previous,
removed as previous-minus-current, modified as the common names with
differing descriptors together with the key-by-key old/new diff; added,
modified and the unchanged names partition the current names; removed is
contained in previous-minus-current; and the three computed sets are
pairwise disjoint. -/
theorem detect_changes_spec (previous current : Snapshot)
    (hp : (pyKeys previous).Nodup) (hc : (pyKeys current).Nodup) :
    (∀ n d, (n, d) ∈ (detect_changes previous current).added ↔
        pyLookup current n = some d ∧ pyLookup previous n = none) ∧
    (∀ n d, (n, d) ∈ (detect_changes previous current).removed ↔
        pyLookup previous n = some d ∧ pyLookup current n = none) ∧
    (∀ e, e ∈ (detect_changes previous current).modified ↔
        pyLookup previous e.name = some e.previous ∧
        pyLookup current e.name = some e.current ∧
        e.previous ≠ e.current ∧
        e.differences = get_detailed_diff e.previous e.current) ∧
    (∀ oldDesc newDesc : Desc, ∀ k ov nv,
        (k, ov, nv) ∈ get_detailed_diff oldDesc newDesc ↔
          ov = pyGetNull oldDesc k ∧ nv = pyGetNull newDesc k ∧ ov ≠ nv) ∧
    (∀ n, n ∈ pyKeys current ↔
        (n ∈ pyKeys (detect_changes previous current).added ∨
          n ∈ modifiedNames (detect_changes previous current) ∨
          ∃ dsc, pyLookup previous n = some dsc ∧
            pyLookup current n = some dsc)) ∧
    (∀ n, n ∈ pyKeys (detect_changes previous current).removed →
        n ∈ pyKeys previous ∧ n ∉ pyKeys current) ∧
    (∀ n, n ∈ pyKeys (detect_changes previous current).added →
        n ∉ modifiedNames (detect_changes previous current) ∧
        n ∉ pyKeys (detect_changes previous current).removed ∧
        ¬∃ dsc, pyLookup previous n = some dsc ∧
          pyLookup current n = some dsc) ∧
    (∀ n, n ∈ modifiedNames (detect_changes previous current) →
        n ∉ pyKeys (detect_changes previous current).removed ∧
        ¬∃ dsc, pyLookup previous n = some dsc ∧
          pyLookup current n = some dsc) := by
  refine ⟨?_, ?_, ?_, ?_, ?_, ?_, ?_, ?_⟩
  · intro n d
    rw [mem_added_iff]
    constructor
    · rintro ⟨hm, hl⟩
      exact ⟨pyLookup_of_mem_nodup _ _ _ hc hm, hl⟩
    · rintro ⟨hm, hl⟩
      exact ⟨pyLookup_mem _ _ _ hm, hl⟩
  · intro n d
    rw [mem_removed_iff]
    constructor
    · rintro ⟨hm, hl⟩
      exact ⟨pyLookup_of_mem_nodup _ _ _ hp hm, hl⟩
    · rintro ⟨hm, hl⟩
      exact ⟨pyLookup_mem _ _ _ hm, hl⟩
  · intro e
    exact mem_modified_iff previous current e hc
  · intro oldDesc newDesc k ov nv
    exact mem_get_detailed_diff oldDesc newDesc k ov nv
  · intro n
    constructor
    · intro h
      rcases exists_pyLookup_of_mem_pyKeys _ n h with ⟨cd, hcd⟩
      rcases hl : pyLookup previous n with - | pd
      · exact Or.inl ((pyKeys_iff_added previous current hc n).mpr ⟨h, hl⟩)
      · by_cases he : pd = cd
        · subst he
          exact Or.inr (Or.inr ⟨pd, rfl, hcd⟩)
        · exact Or.inr (Or.inl
            ((mem_modifiedNames_iff previous current hc n).mpr
              ⟨pd, cd, hl, hcd, he⟩))
    · rintro (h | h | ⟨dsc, -, h2⟩)
      · exact ((pyKeys_iff_added previous current hc n).mp h).1
      · rcases (mem_modifiedNames_iff previous current hc n).mp h with
          ⟨pd, cd, -, h2, -⟩
        exact mem_pyKeys_of_pyLookup _ _ _ h2
      · exact mem_pyKeys_of_pyLookup _ _ _ h2
  · intro n h
    rcases (pyKeys_iff_removed previous current n).mp h with ⟨h1, h2⟩
    refine ⟨h1, fun hmem => ?_⟩
    rcases exists_pyLookup_of_mem_pyKeys _ n hmem with ⟨d, hd⟩
    rw [h2] at hd
    cases hd
  · intro n h
    rcases (pyKeys_iff_added previous current hc n).mp h with ⟨h1, h2⟩
    refine ⟨?_, ?_, ?_⟩
    · intro hmod
      rcases (mem_modifiedNames_iff previous current hc n).mp hmod with
        ⟨pd, cd, h3, -, -⟩
      rw [h2] at h3
      cases h3
    · intro hrem
      rcases (pyKeys_iff_removed previous current n).mp hrem with ⟨-, h4⟩
      rcases exists_pyLookup_of_mem_pyKeys _ n h1 with ⟨d, hd⟩
      rw [h4] at hd
      cases hd
    · rintro ⟨dsc, h3, -⟩
      rw [h2] at h3
      cases h3
  · intro n h
    rcases (mem_modifiedNames_iff previous current hc n).mp h with
      ⟨pd, cd, h1, h2, h3⟩
    refine ⟨?_, ?_⟩
    · intro hrem
      rcases (pyKeys_iff_removed previous current n).mp hrem with ⟨-, h4⟩
      rw [h4] at h2
      cases h2
    · rintro ⟨dsc, h4, h5⟩
      rw [h1] at h4
      rw [h2] at h5
      cases h4
      cases h5
      exact h3 rfl

/-- Witness instantiating detect_changes_spec on concrete snapshots. -/
theorem detect_changes_spec_witness :
    ("calc-mul",
        ([("name", PyJson.str "calc-mul")] : Desc)) ∈
      (detect_changes [("calc-add", [])]
        [("calc-add", []), ("calc-mul", [("name", PyJson.str "calc-mul")])]).added ↔
      pyLookup [("calc-add", ([] : Desc)),
          ("calc-mul", [("name", PyJson.str "calc-mul")])] "calc-mul" =
          some [("name", PyJson.str "calc-mul")] ∧
        pyLookup [("calc-add", ([] : Desc))] "calc-mul" = none :=
  (detect_changes_spec [("calc-add", [])]
      [("calc-add", []), ("calc-mul", [("name", PyJson.str "calc-mul")])]
      (by decide) (by decide)).1 "calc-mul" [("name", PyJson.str "calc-mul")]

end AutoLabMCP

namespace AutoLabMCP

/-!
Claim theorems about the change history.
-/

/-- Claim C3 (amended): in every reachable change-tracker state the change
history is a chronological (timestamp-nondecreasing) append-only log whose
recorded entries are all non-empty diffs, each no later than the clock. -/
theorem change_history_spec (clk : Nat) (st : ToolChangeManager)
    (h : Reachable clk st) :
    (∀ r ∈ st.change_history, r.changes.nonEmpty = true) ∧
    st.change_history.Pairwise (fun a b => a.timestamp ≤ b.timestamp) ∧
    (∀ r ∈ st.change_history, r.timestamp ≤ clk) := by
  induction h with
  | init =>
      refine ⟨?_, ?_, ?_⟩ <;> simp [ToolChangeManager.init]
  | step clk ts st ex nw hr hle ih =>
      rcases ih with ⟨ih1, ih2, ih3⟩
      simp only [update_tools]
      by_cases hne : (detect_changes ex nw).nonEmpty = true
      · simp only [hne, if_true]
        refine ⟨?_, ?_, ?_⟩
        · intro r hrr
          rcases List.mem_append.mp hrr with h1 | h1
          · exact ih1 r h1
          · rcases List.mem_singleton.mp h1 with rfl
            exact hne
        · refine List.pairwise_append.mpr ⟨ih2, List.pairwise_singleton _ _, ?_⟩
          intro a ha b hb
          rcases List.mem_singleton.mp hb with rfl
          exact Nat.le_trans (ih3 a ha) hle
        · intro r hrr
          rcases List.mem_append.mp hrr with h1 | h1
          · exact Nat.le_trans (ih3 r h1) hle
          · rcases List.mem_singleton.mp h1 with rfl
            exact Nat.le_refl ts
      · simp only [hne, if_false]
        exact ⟨ih1, ih2, fun r hrr => Nat.le_trans (ih3 r hrr) hle⟩

/-- Witness instantiating change_history_spec at a one-step reachable
state. -/
theorem change_history_spec_witness :
    (∀ r ∈ ((update_tools 3 [("a-f", [])] []
        ToolChangeManager.init).1).change_history,
      r.changes.nonEmpty = true) ∧
    ((update_tools 3 [("a-f", [])] []
        ToolChangeManager.init).1).change_history.Pairwise
      (fun a b => a.timestamp ≤ b.timestamp) ∧
    (∀ r ∈ ((update_tools 3 [("a-f", [])] []
        ToolChangeManager.init).1).change_history, r.timestamp ≤ 3) :=
  change_history_spec 3 _
    (Reachable.step 0 3 ToolChangeManager.init [("a-f", [])] []
      Reachable.init (Nat.zero_le 3))

theorem historyRun_reachable (n : Nat) : Reachable n (historyRun n) := by
  induction n with
  | zero => exact Reachable.init
  | succ n ih =>
      rw [historyRun]
      exact Reachable.step n (n + 1) (historyRun n)
        (if n % 2 = 0 then [("a-f", [])] else [])
        (if n % 2 = 0 then [] else [("a-f", [])]) ih (Nat.le_succ n)

theorem historyRun_length (n : Nat) :
    (historyRun n).change_history.length = n := by
  induction n with
  | zero => rfl
  | succ n ih =>
      rw [historyRun]
      by_cases hpar : n % 2 = 0
      · simp only [if_pos hpar, update_tools]
        rw [if_pos (by decide : (detect_changes [("a-f", [])] []).nonEmpty = true)]
        simp [ih]
      · simp only [if_neg hpar, update_tools]
        rw [if_pos (by decide : (detect_changes [] [("a-f", [])]).nonEmpty = true)]
        simp [ih]

/-- Counterexample to the bounded part of claim C3: no bound covers the
change history of every reachable state, since the alternating run records
one change per step and is never truncated. -/
theorem change_history_unbounded : ¬ changeHistoryBounded := by
  rintro ⟨B, hB⟩
  have h1 := hB (B + 1) (historyRun (B + 1)) (historyRun_reachable (B + 1))
  rw [historyRun_length] at h1
  omega

end AutoLabMCP

namespace AutoLabMCP

/-!
Claim theorems about registry reconciliation.
-/

/-- Claim C1 (code evaluation at the failing input): a registered qualified
tool plugA-f1 absent from the loaded set survives reconciliation both
without a scope and with a scope naming its own plugin, because the removal
test compares against the plugin name followed by a period while qualified
names are dash-separated, and because an absent scope defaults to the tools
directory name rather than removing every absent qualified name. -/
theorem register_tools_to_mcp_keeps_absent_names :
    pyMem (register_tools_to_mcp "tools" [] none
        [("plugA-f1", { desc := [], fn := 0 })]
        ToolChangeManager.init 1).1 "plugA-f1" = true ∧
    pyMem (register_tools_to_mcp "tools" [] (some "plugA-f2")
        [("plugA-f1", { desc := [], fn := 0 })]
        ToolChangeManager.init 1).1 "plugA-f1" = true := by
  decide

/-- Claim C6 (code evaluation at the failing input): reconciling twice with
an empty loaded set leaves the registry unchanged both times, yet the diff
detected by the second run still reports the stale qualified tool as
removed, because the first run never deleted it from the registry. -/
theorem register_tools_to_mcp_second_diff_nonempty :
    (register_tools_to_mcp "tools" []
        none
        (register_tools_to_mcp "tools" [] none
          [("plugA-f1", { desc := [], fn := 0 })]
          ToolChangeManager.init 1).1
        (register_tools_to_mcp "tools" [] none
          [("plugA-f1", { desc := [], fn := 0 })]
          ToolChangeManager.init 1).2.1 2).1 =
      (register_tools_to_mcp "tools" [] none
        [("plugA-f1", { desc := [], fn := 0 })]
        ToolChangeManager.init 1).1 ∧
    (register_tools_to_mcp "tools" []
        none
        (register_tools_to_mcp "tools" [] none
          [("plugA-f1", { desc := [], fn := 0 })]
          ToolChangeManager.init 1).1
        (register_tools_to_mcp "tools" [] none
          [("plugA-f1", { desc := [], fn := 0 })]
          ToolChangeManager.init 1).2.1 2).2.2.removed =
      [("plugA-f1", [])] := by
  decide

end AutoLabMCP

namespace AutoLabMCP

/-!
Claim theorems about the execution worker and the proxy.
-/

theorem strAppendAssoc (a b c : String) : (a ++ b) ++ c = a ++ (b ++ c) := by
  cases a with
  | mk da =>
      cases b with
      | mk db =>
          cases c with
          | mk dc =>
              show String.mk ((da ++ db) ++ dc) = String.mk (da ++ (db ++ dc))
              rw [List.append_assoc]

/-- Claim C7: the execution worker reports an absent function with a
message containing "not found" and the available non-underscore names,
passes a serializable return value through unchanged, coerces a
non-serializable one to its string form, and reports a raising invocation
with the error text and traceback. -/
theorem execute_tool_spec (m : PyModule) (fn : String)
    (args : List PyJson) (kwargs : List (String × PyJson)) :
    (pyLookup m fn = none →
      execute_tool m fn args kwargs =
        ExecResult.failure
          ("Function " ++ fn ++ " not found in module. Available functions: "
            ++ pyReprStrList (availableFunctions m)) none ∧
      ∃ pre post,
        ("Function " ++ fn ++ " not found in module. Available functions: "
            ++ pyReprStrList (availableFunctions m)) =
          pre ++ ("not found" ++ post)) ∧
    (∀ f, pyLookup m fn = some (ModuleMember.func f) →
      (∀ j, f args kwargs = FuncOutcome.ret (PyObjRet.js j) →
        execute_tool m fn args kwargs = ExecResult.success j) ∧
      (∀ s, f args kwargs = FuncOutcome.ret (PyObjRet.nonSerializable s) →
        execute_tool m fn args kwargs = ExecResult.success (PyJson.str s)) ∧
      (∀ e tb, f args kwargs = FuncOutcome.exn e tb →
        execute_tool m fn args kwargs = ExecResult.failure e (some tb))) := by
  constructor
  · intro h
    constructor
    · rw [execute_tool, h]
    · refine ⟨"Function " ++ fn ++ " ",
        " in module. Available functions: " ++ pyReprStrList (availableFunctions m), ?_⟩
      have hlit : (" not found in module. Available functions: " : String) =
          (" " ++ "not found") ++ " in module. Available functions: " := rfl
      calc "Function " ++ fn ++ " not found in module. Available functions: "
            ++ pyReprStrList (availableFunctions m)
          = ("Function " ++ fn) ++
              ((" " ++ "not found") ++ " in module. Available functions: ") ++
              pyReprStrList (availableFunctions m) := by rw [← hlit]
        _ = ("Function " ++ fn ++ " ") ++
              ("not found" ++ (" in module. Available functions: " ++
                pyReprStrList (availableFunctions m))) := by
              simp only [strAppendAssoc]
  · intro f hf
    refine ⟨?_, ?_, ?_⟩
    · intro j hj
      simp only [execute_tool, hf, hj, serialize_result]
    · intro s hs
      simp only [execute_tool, hf, hs, serialize_result]
    · intro e tb he
      simp only [execute_tool, hf, he]

/-- Witness instantiating execute_tool_spec on the empty module and a
one-function module. -/
theorem execute_tool_spec_witness :
    execute_tool [] "add" [] [] =
      ExecResult.failure
        ("Function " ++ "add" ++ " not found in module. Available functions: "
          ++ pyReprStrList (availableFunctions [])) none ∧
    execute_tool sampleModule "add" [] [] =
      ExecResult.success (PyJson.num 5) :=
  ⟨((execute_tool_spec [] "add" [] []).1 rfl).1,
    ((execute_tool_spec sampleModule "add" [] []).2 _ rfl).1
      (PyJson.num 5) rfl⟩

/-- Claim C8: the proxy returns result when the parsed worker stdout has a
true success flag, raises an execution error carrying the worker's error
text and traceback when the flag is false, and returns unparseable stdout
text unchanged. -/
theorem proxy_call_spec (fields : List (String × PyJson)) (raw : String) :
    (∀ v, pyLookup fields "success" = some (PyJson.bool true) →
        pyLookup fields "result" = some v →
        ToolProxy.call (WorkerStdout.objOut fields) = CallOutcome.ret v) ∧
    (∀ e tb, pyLookup fields "success" = some (PyJson.bool false) →
        pyLookup fields "error" = some (PyJson.str e) →
        pyLookup fields "traceback" = some (PyJson.str tb) →
        ToolProxy.call (WorkerStdout.objOut fields) =
          CallOutcome.raiseError
            ("Tool execution error: " ++ e ++ "\n" ++ tb)) ∧
    ToolProxy.call (WorkerStdout.notJson raw) = CallOutcome.retRaw raw := by
  refine ⟨?_, ?_, rfl⟩
  · intro v h1 h2
    rw [ToolProxy.call]
    rw [pyGetD, h1]
    simp only [Option.getD_some, pyTruthy, if_true]
    rw [h2]
  · intro e tb h1 h2 h3
    rw [ToolProxy.call]
    rw [pyGetD, h1]
    simp only [Option.getD_some, pyTruthy, Bool.false_eq_true, if_false]
    rw [pyGetD, h2, pyGetD, h3]
    simp only [Option.getD_some, pyStrOf]

/-- Witness instantiating proxy_call_spec on concrete worker outputs. -/
theorem proxy_call_spec_witness :
    ToolProxy.call (WorkerStdout.objOut
        [("success", PyJson.bool true), ("result", PyJson.num 7)]) =
      CallOutcome.ret (PyJson.num 7) ∧
    ToolProxy.call (WorkerStdout.objOut
        [("success", PyJson.bool false), ("error", PyJson.str "boom"),
          ("traceback", PyJson.str "tb")]) =
      CallOutcome.raiseError
        ("Tool execution error: " ++ "boom" ++ "\n" ++ "tb") :=
  ⟨(proxy_call_spec
      [("success", PyJson.bool true), ("result", PyJson.num 7)] "").1
      (PyJson.num 7) rfl rfl,
    (proxy_call_spec
      [("success", PyJson.bool false), ("error", PyJson.str "boom"),
        ("traceback", PyJson.str "tb")] "").2.1 "boom" "tb" rfl rfl rfl⟩

end AutoLabMCP

namespace AutoLabMCP

/-!
Lemmas about the heap model, leading to the descriptor-aliasing claim.
-/

theorem heapLookup_cons (p : Addr × HDesc) (h : Heap) (b : Addr) :
    heapLookup (p :: h) b = if b = p.1 then some p.2 else heapLookup h b := by
  cases p with
  | mk a d =>
      simp only [heapLookup, List.lookup]
      by_cases hb : b = a
      · simp [hb]
      · simp [hb, beq_eq_false_iff_ne.mpr hb]

theorem heapLookup_append (h1 h2 : Heap) (b : Addr) :
    heapLookup (h1 ++ h2) b =
      (match heapLookup h1 b with
        | some d => some d
        | none => heapLookup h2 b) := by
  induction h1 with
  | nil => simp [heapLookup, List.lookup]
  | cons p t ih =>
      rw [List.cons_append, heapLookup_cons, heapLookup_cons]
      by_cases hb : b = p.1
      · simp [hb]
      · simp only [if_neg hb]
        exact ih

theorem heapLookup_none_of_not_mem (h : Heap) (b : Addr)
    (hb : b ∉ h.map Prod.fst) : heapLookup h b = none := by
  induction h with
  | nil => rfl
  | cons p t ih =>
      rw [heapLookup_cons]
      rw [List.map_cons, List.mem_cons] at hb
      push_neg at hb
      rw [if_neg hb.1]
      exact ih hb.2

theorem mem_map_fst_of_heapLookup (h : Heap) (b : Addr) (d : HDesc)
    (hd : heapLookup h b = some d) : b ∈ h.map Prod.fst := by
  by_contra hb
  rw [heapLookup_none_of_not_mem h b hb] at hd
  cases hd

theorem le_foldr_max (l : List Nat) (a : Nat) (h : a ∈ l) :
    a ≤ l.foldr (fun x m => max x m) 0 := by
  induction l with
  | nil => cases h
  | cons x t ih =>
      rcases List.mem_cons.mp h with rfl | h1
      · exact Nat.le_max_left _ _
      · exact Nat.le_trans (ih h1) (Nat.le_max_right _ _)

theorem freshAddr_not_mem (h : Heap) : freshAddr h ∉ h.map Prod.fst := by
  intro hmem
  have h1 := le_foldr_max (h.map Prod.fst) (freshAddr h) hmem
  simp only [freshAddr] at h1
  exact Nat.not_succ_le_self _ h1

theorem heapLookup_heapSet_self (h : Heap) (a : Addr) (d dd : HDesc)
    (hx : heapLookup h a = some dd) :
    heapLookup (heapSet h a d) a = some d := by
  induction h with
  | nil => cases hx
  | cons p t ih =>
      rw [heapSet, List.map_cons]
      rw [heapLookup_cons] at hx
      by_cases hp : p.1 = a
      · rw [if_pos hp, heapLookup_cons]
        simp
      · rw [if_neg hp, heapLookup_cons]
        rw [if_neg (fun he => hp he.symm)] at hx ⊢
        exact ih hx

theorem heapLookup_heapSet_ne (h : Heap) (a b : Addr) (d : HDesc)
    (hb : b ≠ a) : heapLookup (heapSet h a d) b = heapLookup h b := by
  induction h with
  | nil => rfl
  | cons p t ih =>
      rw [heapSet, List.map_cons]
      by_cases hp : p.1 = a
      · rw [if_pos hp, heapLookup_cons, heapLookup_cons,
          if_neg hb, if_neg (fun he => hb (he.trans hp))]
        exact ih
      · rw [if_neg hp, heapLookup_cons, heapLookup_cons]
        by_cases hbp : b = p.1
        · simp [hbp]
        · rw [if_neg hbp, if_neg hbp]
          exact ih

theorem heapAllocList_spec (descs : List HDesc) : ∀ h : Heap,
    ((heapAllocList h descs).2).length = descs.length ∧
    ((heapAllocList h descs).2).Nodup ∧
    (∀ a ∈ (heapAllocList h descs).2, a ∉ h.map Prod.fst) ∧
    (∀ a d0, heapLookup h a = some d0 →
      heapLookup (heapAllocList h descs).1 a = some d0) ∧
    (∀ p ∈ descs.zip (heapAllocList h descs).2,
      heapLookup (heapAllocList h descs).1 p.2 = some p.1) := by
  induction descs with
  | nil =>
      intro h
      exact ⟨rfl, List.nodup_nil, fun a ha => absurd ha (List.not_mem_nil a),
        fun a d0 hd => hd, fun p hp => absurd hp (List.not_mem_nil p)⟩
  | cons d rest ih =>
      intro h
      rw [heapAllocList]
      rcases ih (h ++ [(freshAddr h, d)]) with ⟨ihLen, ihNd, ihFresh, ihPres, ihZip⟩
      have hself : heapLookup (h ++ [(freshAddr h, d)]) (freshAddr h) = some d := by
        rw [heapLookup_append,
          heapLookup_none_of_not_mem h (freshAddr h) (freshAddr_not_mem h)]
        simp [heapLookup_cons]
      have hkeys : (h ++ [(freshAddr h, d)]).map Prod.fst =
          h.map Prod.fst ++ [freshAddr h] := by simp
      refine ⟨by simp [ihLen], ?_, ?_, ?_, ?_⟩
      · refine List.nodup_cons.mpr ⟨?_, ihNd⟩
        intro hmem
        have := ihFresh (freshAddr h) hmem
        rw [hkeys] at this
        exact this (List.mem_append.mpr (Or.inr (List.mem_singleton.mpr rfl)))
      · intro a ha
        rcases List.mem_cons.mp ha with rfl | h1
        · exact freshAddr_not_mem h
        · intro hmem
          have := ihFresh a h1
          rw [hkeys] at this
          exact this (List.mem_append.mpr (Or.inl hmem))
      · intro a d0 hd
        refine ihPres a d0 ?_
        rw [heapLookup_append, hd]
      · intro p hp
        rw [List.zip_cons_cons] at hp
        rcases List.mem_cons.mp hp with rfl | h1
        · exact ihPres _ _ hself
        · exact ihZip p h1

end AutoLabMCP

namespace AutoLabMCP

theorem pySet_not_mem {α : Type} (l : List (String × α)) (k : String) (v : α)
    (h : pyMem l k = false) : pySet l k v = l ++ [(k, v)] := by
  rw [pySet, if_neg (by simp [h])]

theorem foldl_pySet_eq_append {α : Type} :
    ∀ (l acc : List (String × α)), (pyKeys acc ++ pyKeys l).Nodup →
      l.foldl (fun a p => pySet a p.1 p.2) acc = acc ++ l := by
  intro l
  induction l with
  | nil => intro acc h; simp
  | cons q t ih =>
      intro acc h
      rw [List.foldl_cons]
      have hk : q.1 ∉ pyKeys acc := by
        have hd := List.disjoint_of_nodup_append h
        intro hmem
        exact hd hmem (by simp [pyKeys])
      rw [pySet_not_mem acc q.1 q.2 ((pyMem_false_iff acc q.1).mpr hk)]
      have hnd : (pyKeys (acc ++ [(q.1, q.2)]) ++ pyKeys t).Nodup := by
        simp only [pyKeys, List.map_append, List.map_cons] at h ⊢
        simpa [List.append_assoc] using h
      have := ih (acc ++ [(q.1, q.2)]) hnd
      rw [this, List.append_assoc]
      rfl

theorem map_eq_of_zip {α β γ : Type} :
    ∀ (l1 : List α) (l2 : List β) (f : α → γ) (g : β → γ),
      l1.length = l2.length → (∀ p ∈ l1.zip l2, f p.1 = g p.2) →
      l1.map f = l2.map g := by
  intro l1
  induction l1 with
  | nil =>
      intro l2 f g hlen hpt
      cases l2 with
      | nil => rfl
      | cons b t => cases hlen
  | cons a t ih =>
      intro l2 f g hlen hpt
      cases l2 with
      | nil => cases hlen
      | cons b t2 =>
          rw [List.map_cons, List.map_cons,
            hpt (a, b) (by rw [List.zip_cons_cons]; exact List.mem_cons_self _ _),
            ih t2 f g (by simpa using hlen)
              (fun p hp => hpt p (by rw [List.zip_cons_cons]; exact List.mem_cons_of_mem _ hp))]

theorem descName_pySet_fn (dd : HDesc) (v : DescVal) :
    descName (pySet dd "fn" v) = descName dd := by
  rw [descName, descName, pyLookup_pySet_ne dd "fn" "name" v (by decide)]

theorem register_mutate_fn_spec :
    ∀ (loaded : List (String × Addr)) (h : Heap) (proxyOf : String → Nat),
      (loaded.map Prod.snd).Nodup →
      (∀ q ∈ loaded, ∀ dd, heapLookup h q.2 = some dd →
        heapLookup (register_mutate_fn h loaded proxyOf) q.2 =
          some (pySet dd "fn" (DescVal.fnBound (proxyOf q.1)))) ∧
      (∀ a, a ∉ loaded.map Prod.snd →
        heapLookup (register_mutate_fn h loaded proxyOf) a = heapLookup h a) := by
  intro loaded
  induction loaded with
  | nil =>
      intro h proxyOf hnd
      exact ⟨fun q hq => absurd hq (List.not_mem_nil q), fun a ha => rfl⟩
  | cons q rest ih =>
      intro h proxyOf hnd
      rw [List.map_cons, List.nodup_cons] at hnd
      have hstep : register_mutate_fn h (q :: rest) proxyOf =
          register_mutate_fn
            (match heapLookup h q.2 with
              | some dd => heapSet h q.2 (pySet dd "fn" (DescVal.fnBound (proxyOf q.1)))
              | none => h) rest proxyOf := by
        rw [register_mutate_fn, List.foldl_cons, register_mutate_fn]
      constructor
      · intro q1 hq1 dd hdd
        rcases List.mem_cons.mp hq1 with rfl | hq2
        · rw [hstep, hdd]
          have hset : heapLookup
              (heapSet h q1.2 (pySet dd "fn" (DescVal.fnBound (proxyOf q1.1))))
              q1.2 = some (pySet dd "fn" (DescVal.fnBound (proxyOf q1.1))) :=
            heapLookup_heapSet_self h q1.2 _ dd hdd
          rw [(ih _ proxyOf hnd.2).2 q1.2 hnd.1]
          exact hset
        · have hne : q1.2 ≠ q.2 := by
            intro he
            exact hnd.1 (he ▸ List.mem_map_of_mem Prod.snd hq2)
          rw [hstep]
          cases hq : heapLookup h q.2 with
          | none =>
              exact (ih _ proxyOf hnd.2).1 q1 hq2 dd hdd
          | some dd0 =>
              refine (ih _ proxyOf hnd.2).1 q1 hq2 dd ?_
              rw [heapLookup_heapSet_ne h q.2 q1.2 _ hne]
              exact hdd
      · intro a ha
        rw [List.map_cons, List.mem_cons] at ha
        push_neg at ha
        rw [hstep, (ih _ proxyOf hnd.2).2 a ha.2]
        cases hq : heapLookup h q.2 with
        | none => rfl
        | some dd0 => exact heapLookup_heapSet_ne h q.2 a _ ha.1

end AutoLabMCP


namespace AutoLabMCP

theorem mem_zip_swap {α β : Type} (l1 : List α) (l2 : List β) (p : α × β)
    (hp : p ∈ l1.zip l2) : (p.2, p.1) ∈ l2.zip l1 := by
  rw [← List.zip_swap]
  exact List.mem_map_of_mem Prod.swap hp

/-- Claim C9: registering freshly loaded tools installs the "fn" binding in
the very descriptor objects that load_all_tools stored in tools_cache, so
after registration the plugin's cache entry aliases descriptors that carry
a non-serializable fn entry on top of their unchanged serializable fields,
and every subsequent cache hit returns descriptors carrying such an entry. -/
theorem register_fn_aliases_cache (h : Heap) (cache : EnvCache)
    (plugin : String) (d : ToolDirState) (now : Nat) (descs : List HDesc)
    (proxyOf : String → Nat) (hnames : (descs.map descName).Nodup) :
    (∀ nm a, (nm, a) ∈ (load_plugin_fresh h cache plugin d now descs).2.2 →
      (∃ e, pyLookup (load_plugin_fresh h cache plugin d now descs).2.1 plugin
          = some e ∧ a ∈ e.tools) ∧
      (∃ dd, heapLookup (load_plugin_fresh h cache plugin d now descs).1 a
          = some dd ∧
        heapLookup
          (register_mutate_fn (load_plugin_fresh h cache plugin d now descs).1
            (load_plugin_fresh h cache plugin d now descs).2.2 proxyOf) a =
          some (pySet dd "fn" (DescVal.fnBound (proxyOf nm))) ∧
        pyLookup (pySet dd "fn" (DescVal.fnBound (proxyOf nm))) "fn" =
          some (DescVal.fnBound (proxyOf nm)) ∧
        (∀ k, k ≠ "fn" →
          pyLookup (pySet dd "fn" (DescVal.fnBound (proxyOf nm))) k =
            pyLookup dd k))) ∧
    (∀ nm a, (nm, a) ∈ load_plugin_cached
        (register_mutate_fn (load_plugin_fresh h cache plugin d now descs).1
          (load_plugin_fresh h cache plugin d now descs).2.2 proxyOf)
        (load_plugin_fresh h cache plugin d now descs).2.1 plugin →
      ∃ dd pid,
        heapLookup
          (register_mutate_fn (load_plugin_fresh h cache plugin d now descs).1
            (load_plugin_fresh h cache plugin d now descs).2.2 proxyOf) a =
          some dd ∧
        pyLookup dd "fn" = some (DescVal.fnBound pid)) := by
  obtain ⟨hlen, hnodup, hfresh, hpres, hzip⟩ := heapAllocList_spec descs h
  have hlenle : descs.length ≤ (heapAllocList h descs).2.length :=
    le_of_eq hlen.symm
  have hlenle2 : (heapAllocList h descs).2.length ≤ descs.length :=
    le_of_eq hlen
  have hkeysL : pyKeys ((descs.zip (heapAllocList h descs).2).map
      (fun p => (descName p.1, p.2))) = descs.map descName := by
    rw [pyKeys, List.map_map]
    have hcomp : ((fun p : String × Addr => p.1) ∘
        (fun p : HDesc × Addr => (descName p.1, p.2))) =
        (descName ∘ Prod.fst) := rfl
    rw [hcomp, ← List.map_map, List.map_fst_zip descs _ hlenle]
  have hLform : (load_plugin_fresh h cache plugin d now descs).2.2 =
      (descs.zip (heapAllocList h descs).2).map
        (fun p => (descName p.1, p.2)) := by
    show (descs.zip (heapAllocList h descs).2).foldl
        (fun acc p => pySet acc (descName p.1) p.2) [] = _
    rw [← List.foldl_map (fun p : HDesc × Addr => (descName p.1, p.2))
      (fun a q => pySet a q.1 q.2) (descs.zip (heapAllocList h descs).2) []]
    rw [foldl_pySet_eq_append _ [] (by
      simp only [pyKeys, List.map_nil, List.nil_append]
      rw [← pyKeys, hkeysL]
      exact hnames)]
    exact List.nil_append _
  have hsndL : ((descs.zip (heapAllocList h descs).2).map
      (fun p => (descName p.1, p.2))).map Prod.snd =
      (heapAllocList h descs).2 := by
    rw [List.map_map]
    have hcomp : ((Prod.snd : String × Addr → Addr) ∘
        (fun p : HDesc × Addr => (descName p.1, p.2))) =
        (Prod.snd : HDesc × Addr → Addr) := rfl
    rw [hcomp, List.map_snd_zip descs _ hlenle2]
  have hcache1 : pyLookup (load_plugin_fresh h cache plugin d now descs).2.1
      plugin = some { tools := (heapAllocList h descs).2
                      fileMtimes := get_tool_file_info d
                      lastLoaded := now } := by
    show pyLookup (pySet cache plugin _) plugin = _
    exact pyLookup_pySet_self cache plugin _
  rw [hLform]
  obtain ⟨hmut1, hmut2⟩ := register_mutate_fn_spec
    ((descs.zip (heapAllocList h descs).2).map (fun p => (descName p.1, p.2)))
    (heapAllocList h descs).1 proxyOf (by rw [hsndL]; exact hnodup)
  constructor
  · intro nm a hmem
    rcases List.mem_map.mp hmem with ⟨p, hp, hpe⟩
    have hnm : descName p.1 = nm := congrArg Prod.fst hpe
    have ha : p.2 = a := congrArg Prod.snd hpe
    constructor
    · refine ⟨_, hcache1, ?_⟩
      show a ∈ (heapAllocList h descs).2
      rw [← ha, ← List.map_snd_zip descs _ hlenle2]
      exact List.mem_map_of_mem Prod.snd hp
    · refine ⟨p.1, ?_, ?_, pyLookup_pySet_self _ _ _, ?_⟩
      · show heapLookup (heapAllocList h descs).1 a = some p.1
        rw [← ha]
        exact hzip p hp
      · have hr := hmut1 (nm, a) (by rw [← hpe]; exact List.mem_map_of_mem _ hp)
          p.1 (by rw [← ha]; exact hzip p hp)
        exact hr
      · intro k hk
        exact pyLookup_pySet_ne p.1 "fn" k _ hk
  · intro nm a hmem
    have hnameAt : ∀ p ∈ descs.zip (heapAllocList h descs).2,
        descName p.1 = heapDescName
          (register_mutate_fn (heapAllocList h descs).1
            ((descs.zip (heapAllocList h descs).2).map
              (fun q => (descName q.1, q.2))) proxyOf) p.2 := by
      intro p hp
      have hm := hmut1 (descName p.1, p.2)
        (List.mem_map_of_mem _ hp) p.1 (hzip p hp)
      rw [heapDescName, hm]
      show descName p.1 =
        descName (pySet p.1 "fn" (DescVal.fnBound (proxyOf (descName p.1))))
      rw [descName_pySet_fn]
    have hmapeq : (heapAllocList h descs).2.map
        (fun a2 => heapDescName
          (register_mutate_fn (heapAllocList h descs).1
            ((descs.zip (heapAllocList h descs).2).map
              (fun q => (descName q.1, q.2))) proxyOf) a2) =
        descs.map descName := by
      refine map_eq_of_zip (heapAllocList h descs).2 descs _ descName hlen ?_
      intro p hp
      exact (hnameAt (p.2, p.1) (mem_zip_swap _ _ p hp)).symm
    rw [show (load_plugin_fresh h cache plugin d now descs).1 =
      (heapAllocList h descs).1 from rfl] at hmem
    rw [load_plugin_cached, hcache1] at hmem
    have hmem2 : (nm, a) ∈ (heapAllocList h descs).2.foldl
        (fun acc a2 => pySet acc (heapDescName
          (register_mutate_fn (heapAllocList h descs).1
            ((descs.zip (heapAllocList h descs).2).map
              (fun q => (descName q.1, q.2))) proxyOf) a2) a2) [] := hmem
    have hfold2 : (heapAllocList h descs).2.foldl
        (fun acc a2 => pySet acc (heapDescName
          (register_mutate_fn (heapAllocList h descs).1
            ((descs.zip (heapAllocList h descs).2).map
              (fun q => (descName q.1, q.2))) proxyOf) a2) a2) [] =
        (heapAllocList h descs).2.map
          (fun a2 => (heapDescName
            (register_mutate_fn (heapAllocList h descs).1
              ((descs.zip (heapAllocList h descs).2).map
                (fun q => (descName q.1, q.2))) proxyOf) a2, a2)) := by
      rw [← List.foldl_map
        (fun a2 : Addr => (heapDescName
          (register_mutate_fn (heapAllocList h descs).1
            ((descs.zip (heapAllocList h descs).2).map
              (fun q => (descName q.1, q.2))) proxyOf) a2, a2))
        (fun acc q => pySet acc q.1 q.2) (heapAllocList h descs).2 []]
      rw [foldl_pySet_eq_append _ [] (by
        simp only [pyKeys, List.map_nil, List.nil_append, List.map_map]
        have hcomp : ((fun p : String × Addr => p.1) ∘
            (fun a2 : Addr => (heapDescName
              (register_mutate_fn (heapAllocList h descs).1
                ((descs.zip (heapAllocList h descs).2).map
                  (fun q => (descName q.1, q.2))) proxyOf) a2, a2))) =
            (fun a2 : Addr => heapDescName
              (register_mutate_fn (heapAllocList h descs).1
                ((descs.zip (heapAllocList h descs).2).map
                  (fun q => (descName q.1, q.2))) proxyOf) a2) := rfl
        rw [hcomp, hmapeq]
        exact hnames)]
      exact List.nil_append _
    rw [hfold2] at hmem2
    rcases List.mem_map.mp hmem2 with ⟨a0, ha0, ha0e⟩
    have haa : a0 = a := congrArg Prod.snd ha0e
    rw [haa] at ha0
    rw [← List.map_snd_zip descs _ hlenle2] at ha0
    rcases List.mem_map.mp ha0 with ⟨p, hp, hpa⟩
    have hm := hmut1 (descName p.1, p.2)
      (List.mem_map_of_mem _ hp) p.1 (hzip p hp)
    refine ⟨pySet p.1 "fn" (DescVal.fnBound (proxyOf (descName p.1))),
      proxyOf (descName p.1), ?_, pyLookup_pySet_self _ _ _⟩
    rw [← hpa]
    exact hm

end AutoLabMCP

namespace AutoLabMCP

/-- Witness instantiating register_fn_aliases_cache on one freshly loaded
plugin descriptor. -/
theorem register_fn_aliases_cache_witness :
    (∃ e, pyLookup (load_plugin_fresh [] [] "calc"
          { toolPyMtime := some 1, requirementsMtime := none } 2
          [[("name", DescVal.js (PyJson.str "calc-add"))]]).2.1 "calc" =
        some e ∧ (1 : Addr) ∈ e.tools) ∧
    (∃ dd, heapLookup (load_plugin_fresh [] [] "calc"
          { toolPyMtime := some 1, requirementsMtime := none } 2
          [[("name", DescVal.js (PyJson.str "calc-add"))]]).1 1 = some dd ∧
      heapLookup
          (register_mutate_fn
            (load_plugin_fresh [] [] "calc"
              { toolPyMtime := some 1, requirementsMtime := none } 2
              [[("name", DescVal.js (PyJson.str "calc-add"))]]).1
            (load_plugin_fresh [] [] "calc"
              { toolPyMtime := some 1, requirementsMtime := none } 2
              [[("name", DescVal.js (PyJson.str "calc-add"))]]).2.2
            (fun _ => 7)) 1 =
        some (pySet dd "fn" (DescVal.fnBound 7)) ∧
      pyLookup (pySet dd "fn" (DescVal.fnBound 7)) "fn" =
        some (DescVal.fnBound 7) ∧
      (∀ k, k ≠ "fn" →
        pyLookup (pySet dd "fn" (DescVal.fnBound 7)) k = pyLookup dd k)) :=
  (register_fn_aliases_cache [] [] "calc"
      { toolPyMtime := some 1, requirementsMtime := none } 2
      [[("name", DescVal.js (PyJson.str "calc-add"))]]
      (fun _ => 7) (by decide)).1 "calc-add" 1 (by decide)

end AutoLabMCP
